import Mathlib

/-!
Verification development for the rule-based PCG program (RuleBasedPCG.cpp).

The source file holds two near-identical copies of the program.  The first
copy keeps a separate output buffer in cellularAutomata (it writes to a copy
named newMap while reading currentMap); the second copy reads and writes
currentMap in place.  Both copies of drunkAgent write into a copy newMap of
the grid and return it, leaving the referenced argument untouched.

Modelling conventions:
- Map is a list of rows of integer cells, as vector of vector of int.
- double values (probabilities, the neighbor ratio, the threshold) are
  modelled as exact rationals.
- the mt19937 generator together with the two distributions is modelled as
  an abstract pair of streams: a stream of real draws in the unit interval
  and a stream of direction draws in Fin 4, each with a cursor.  The C++
  code draws from one generator through two distributions; any interleaving
  that generator can produce is a pair of streams, so every theorem below
  quantifies over all streams.
- out-of-range vector indexing is undefined behaviour in C++; the model
  makes it a no-op write (List.set) and a default read of 0.  All claims
  are settled on executions whose indices are proved in range.
-/

/-- Cell matrix, translated from using Map = std vector of vector of int. -/
abbrev Map := List (List Int)

/-- Read cell (i, j); rows and cells missing from the representation read 0. -/
def getCell (m : Map) (i j : Nat) : Int := (m.getD i []).getD j 0

/-- Write cell (i, j), translated from newMap[i][j] = v. -/
def setCell (m : Map) (i j : Nat) (v : Int) : Map :=
  m.set i ((m.getD i []).set j v)

/-- Abstract view of the per-call mt19937 generator: a stream of
uniform-real draws and a stream of direction draws, each with a cursor. -/
structure Rng where
  probs : Nat → ℚ
  dirs : Nat → Fin 4
  pIdx : Nat
  dIdx : Nat

/-- A concrete stream used only to instantiate theorems. -/
def gZero : Rng := ⟨fun _ => 0, fun _ => 0, 0, 0⟩

-- ## Generic list lemmas for the embedding

theorem getD_of_length_le {α : Type} (d : α) :
    ∀ (l : List α) (n : Nat), l.length ≤ n → l.getD n d = d := by
  intro l
  induction l with
  | nil => intro n _; cases n <;> rfl
  | cons a t ih =>
      intro n h
      cases n with
      | zero => exact absurd h (by simp)
      | succ k => exact ih k (Nat.le_of_succ_le_succ h)

theorem getD_set_self {α : Type} (d v : α) :
    ∀ (l : List α) (n : Nat), n < l.length → (l.set n v).getD n d = v := by
  intro l
  induction l with
  | nil => intro n h; exact absurd h (by simp)
  | cons a t ih =>
      intro n h
      cases n with
      | zero => rfl
      | succ k => exact ih k (Nat.lt_of_succ_lt_succ h)

theorem getD_set_ne {α : Type} (d v : α) :
    ∀ (l : List α) (a n : Nat), a ≠ n → (l.set a v).getD n d = l.getD n d := by
  intro l
  induction l with
  | nil => intro a n _; simp [List.set]
  | cons x t ih =>
      intro a n hne
      cases a with
      | zero =>
          cases n with
          | zero => exact absurd rfl hne
          | succ k => rfl
      | succ b =>
          cases n with
          | zero => rfl
          | succ k => exact ih b k (fun h => hne (by rw [h]))

-- ## setCell / getCell facts

theorem length_setCell (m : Map) (a b : Nat) (v : Int) :
    (setCell m a b v).length = m.length := by
  simp [setCell]

theorem rowLen_setCell (m : Map) (a b : Nat) (v : Int) (i : Nat) :
    ((setCell m a b v).getD i []).length = (m.getD i []).length := by
  by_cases hi : a = i
  · subst hi
    by_cases hl : a < m.length
    · rw [setCell, getD_set_self [] _ m a hl, List.length_set]
    · have hle : m.length ≤ a := Nat.le_of_not_lt hl
      rw [setCell, getD_of_length_le [] _ a (by simpa using hle),
        getD_of_length_le [] m a hle]
  · rw [setCell, getD_set_ne [] _ m a i hi]

theorem getCell_setCell_ne (m : Map) (a b v i j)
    (h : i ≠ a ∨ j ≠ b) :
    getCell (setCell m a b v) i j = getCell m i j := by
  rcases h with h | h
  · unfold getCell setCell
    rw [getD_set_ne [] _ m a i (fun he => h he.symm)]
  · unfold getCell setCell
    by_cases hi : a = i
    · subst hi
      by_cases hl : a < m.length
      · rw [getD_set_self [] _ m a hl, getD_set_ne 0 v _ b j (fun he => h he.symm)]
      · have hle : m.length ≤ a := Nat.le_of_not_lt hl
        rw [getD_of_length_le [] _ a (by simpa using hle), getD_of_length_le [] m a hle]
    · rw [getD_set_ne [] _ m a i hi]

theorem getCell_setCell_eq (m : Map) (a b v)
    (ha : a < m.length) (hb : b < (m.getD a []).length) :
    getCell (setCell m a b v) a b = v := by
  unfold getCell setCell
  rw [getD_set_self [] _ m a ha, getD_set_self 0 v _ b hb]

theorem getCell_setCell_cases (m : Map) (a b v i j) :
    getCell (setCell m a b v) i j = getCell m i j ∨
      getCell (setCell m a b v) i j = v := by
  by_cases hi : i = a
  · by_cases hj : j = b
    · subst hi; subst hj
      by_cases ha : i < m.length
      · by_cases hb : j < (m.getD i []).length
        · exact Or.inr (getCell_setCell_eq m i j v ha hb)
        · left
          unfold getCell setCell
          rw [getD_set_self [] _ m i ha,
            getD_of_length_le 0 _ j (by simpa using Nat.le_of_not_lt hb),
            getD_of_length_le 0 _ j (Nat.le_of_not_lt hb)]
      · left
        unfold getCell setCell
        have hle : m.length ≤ i := Nat.le_of_not_lt ha
        rw [getD_of_length_le [] _ i (by simpa using hle), getD_of_length_le [] m i hle]
    · exact Or.inl (getCell_setCell_ne m a b v i j (Or.inr hj))
  · exact Or.inl (getCell_setCell_ne m a b v i j (Or.inl hi))

theorem foldl_preserve {α β : Type} (P : β → Prop) (f : β → α → β) :
    ∀ (l : List α) (b : β), P b → (∀ x ∈ l, ∀ c, P c → P (f c x)) →
      P (l.foldl f b) := by
  intro l
  induction l with
  | nil => intro b hb _; exact hb
  | cons a t ih =>
      intro b hb hf
      exact ih (f b a) (hf a (List.mem_cons_self a t) b hb)
        (fun x hx c hc => hf x (List.mem_cons_of_mem a hx) c hc)

-- ## Cellular automata (both copies of the source file)

/-- Offsets -R, ..., R of the neighbor window, translated from the loops
for di from -R to R and for dj from -R to R. -/
def deltas (R : Nat) : List Int := (List.range (2 * R + 1)).map fun k => (k : Int) - R

/-- Count of ones (sum of cell values) over the in-bounds portion of the
window centered at (i, j), translated from the countOnes loops of
cellularAutomata: out-of-bounds neighbors are skipped, the center cell is
included. -/
def windowSum (m : Map) (W H R : Nat) (i j : Nat) : Int :=
  (deltas R).foldl (fun acc di =>
    (deltas R).foldl (fun acc2 dj =>
      let ni : Int := (i : Int) + di
      let nj : Int := (j : Int) + dj
      if 0 ≤ ni ∧ ni < (H : Int) ∧ 0 ≤ nj ∧ nj < (W : Int) then
        acc2 + getCell m ni.toNat nj.toNat
      else acc2) acc) 0

/-- The update rule of cellularAutomata for one cell, reading the map m:
neighborRatio = countOnes / (2R+1)^2, output 1 when neighborRatio > U. -/
def caCell (m : Map) (W H R : Nat) (U : ℚ) (i j : Nat) : Int :=
  if ((windowSum m W H R i j : ℚ) / (((2 * R + 1) * (2 * R + 1) : Nat) : ℚ)) > U
  then 1 else 0

/-- Inner loop of the first (buffered) copy of cellularAutomata: write
f i j into columns 0, ..., w-1 of row i of the output buffer.  Every read
performed by f is from the fixed input map, not from the buffer. -/
def writeRow (f : Nat → Nat → Int) (i : Nat) : Nat → Map → Map
  | 0, m => m
  | w + 1, m => setCell (writeRow f i w m) i w (f i w)

/-- Outer loop of the first (buffered) copy of cellularAutomata: fill
rows 0, ..., h-1 of the output buffer. -/
def writeTable (f : Nat → Nat → Int) (W : Nat) : Nat → Map → Map
  | 0, m => m
  | h + 1, m => writeRow f h W (writeTable f W h m)

/-- First copy of cellularAutomata (buffered): newMap starts as a copy of
currentMap, every cell (i, j) with i < H, j < W is overwritten with the
rule computed from currentMap.  The function constructs a generator and a
distribution but never draws from them; the g argument models that unused
generator. -/
def cellularAutomata (g : Rng) (m : Map) (W H R : Nat) (U : ℚ) : Map :=
  writeTable (fun i j => caCell m W H R U i j) W H m

/-- Inner loop of the second copy of cellularAutomata, which writes back
into currentMap: the rule for cell (i, w) is computed from the map as
already updated by the preceding writes of the same pass. -/
def caRowInPlace (W H R : Nat) (U : ℚ) (i : Nat) : Nat → Map → Map
  | 0, m => m
  | w + 1, m =>
      let m2 := caRowInPlace W H R U i w m
      setCell m2 i w (caCell m2 W H R U i w)

/-- Outer loop of the second (in-place) copy of cellularAutomata. -/
def caTableInPlace (W H R : Nat) (U : ℚ) : Nat → Map → Map
  | 0, m => m
  | h + 1, m => caRowInPlace W H R U h W (caTableInPlace W H R U h m)

/-- Second copy of cellularAutomata: same rule, but currentMap is both read
and written, so later cells see the updated values of earlier cells.  The g
argument again models the unused per-call generator. -/
def cellularAutomataInPlace (g : Rng) (m : Map) (W H R : Nat) (U : ℚ) : Map :=
  caTableInPlace W H R U H m

example : cellularAutomata gZero [[1, 0, 0]] 3 1 1 (mkRat 1 10) = [[1, 1, 0]] := by
  simp [cellularAutomata, writeTable, writeRow, caCell, windowSum, deltas, getCell, setCell,
    List.range_succ, Rat.mkRat_eq_div]
  norm_num

example : cellularAutomataInPlace gZero [[1, 0, 0]] 3 1 1 (mkRat 1 10) = [[1, 1, 1]] := by
  simp [cellularAutomataInPlace, caTableInPlace, caRowInPlace, caCell, windowSum, deltas,
    getCell, setCell, List.range_succ, Rat.mkRat_eq_div]
  norm_num

-- ## Drunk agent

/-- The per-iteration parameters of drunkAgent, matching its argument list. -/
structure DAParams where
  W : Nat
  H : Nat
  J : Nat
  I : Nat
  roomSizeX : Nat
  roomSizeY : Nat
  probGenerateRoom : ℚ
  probIncreaseRoom : ℚ
  probChangeDirection : ℚ
  probIncreaseChange : ℚ

/-- The running state of one drunkAgent invocation: the output buffer
newMap, the agent position (agentX indexes rows, bounded by H; agentY
indexes columns, bounded by W), currentDirection, currentProbRoom,
currentProbChange, and the generator. -/
structure DAState where
  map : Map
  agentX : Int
  agentY : Int
  dir : Fin 4
  probRoom : ℚ
  probChange : ℚ
  rng : Rng

/-- The directions vector of the source: up, down, left, right as row and
column offsets. -/
def directions : List (Int × Int) := [(-1, 0), (1, 0), (0, -1), (0, 1)]

/-- Offset selected by a direction index, translated from
directions[currentDirection]. -/
def dirOffset (d : Fin 4) : Int × Int := directions.getD d.val (0, 0)

/-- Write with possibly negative indices.  The source indexes the vector
with int values that are in range on every execution the claims cover;
negative indices would be undefined behaviour and are clamped here. -/
def setCellZ (m : Map) (i j : Int) (v : Int) : Map := setCell m i.toNat j.toNat v

/-- Integer range a, a+1, ..., b, translated from for x from a to b
inclusive; empty when b < a. -/
def rangeZ (a b : Int) : List Int :=
  (List.range (b + 1 - a).toNat).map fun k : Nat => a + (k : Int)

/-- Room carving, translated from the room block of drunkAgent: half
extents roomSize/2, the covered rectangle clamped to the grid with max
against 0 and min against H-1 and W-1, every covered cell set to 1. -/
def roomStartX (ax : Int) (rx : Nat) : Int := max 0 (ax - (rx / 2 : Nat))

def roomEndX (H : Nat) (ax : Int) (rx : Nat) : Int := min ((H : Int) - 1) (ax + (rx / 2 : Nat))

def roomStartY (ay : Int) (ry : Nat) : Int := max 0 (ay - (ry / 2 : Nat))

def roomEndY (W : Nat) (ay : Int) (ry : Nat) : Int := min ((W : Int) - 1) (ay + (ry / 2 : Nat))

def carveRoom (m : Map) (W H : Nat) (ax ay : Int) (rx ry : Nat) : Map :=
  (rangeZ (roomStartX ax rx) (roomEndX H ax rx)).foldl (fun acc x =>
    (rangeZ (roomStartY ay ry) (roomEndY W ay ry)).foldl
      (fun acc2 y => setCellZ acc2 x y 1) acc) m

/-- One inner step of drunkAgent, in source order: mark the current cell
as corridor; roll for a room (carve and reset currentProbRoom on success,
ramp it otherwise); roll for a direction change (redraw the direction and
reset currentProbChange on success, ramp it otherwise); then try to move
one offset, and on leaving the grid stay in place, redraw the direction
and reset currentProbChange.  The two probability rolls are the draws at
cursors pIdx and pIdx+1 of the stream. -/
def daStep (p : DAParams) (s : DAState) : DAState :=
  let m1 := setCellZ s.map s.agentX s.agentY 1
  let r1 := s.rng.probs s.rng.pIdx
  let m2 := if r1 < s.probRoom then
              carveRoom m1 p.W p.H s.agentX s.agentY p.roomSizeX p.roomSizeY
            else m1
  let pr1 := if r1 < s.probRoom then p.probGenerateRoom
             else s.probRoom + p.probIncreaseRoom
  let r2 := s.rng.probs (s.rng.pIdx + 1)
  let d1 := if r2 < s.probChange then s.rng.dirs s.rng.dIdx else s.dir
  let pc1 := if r2 < s.probChange then p.probChangeDirection
             else s.probChange + p.probIncreaseChange
  let dI1 := if r2 < s.probChange then s.rng.dIdx + 1 else s.rng.dIdx
  let off := dirOffset d1
  let nX := s.agentX + off.1
  let nY := s.agentY + off.2
  if 0 ≤ nX ∧ nX < (p.H : Int) ∧ 0 ≤ nY ∧ nY < (p.W : Int) then
    ⟨m2, nX, nY, d1, pr1, pc1, ⟨s.rng.probs, s.rng.dirs, s.rng.pIdx + 2, dI1⟩⟩
  else
    ⟨m2, s.agentX, s.agentY, s.rng.dirs dI1, pr1, p.probChangeDirection,
      ⟨s.rng.probs, s.rng.dirs, s.rng.pIdx + 2, dI1 + 1⟩⟩

/-- The inner loop: I steps in order. -/
def iterSteps (p : DAParams) : Nat → DAState → DAState
  | 0, s => s
  | n + 1, s => iterSteps p n (daStep p s)

/-- One walk: draw a fresh direction uniformly (the draw at cursor dIdx),
then run the I inner steps. -/
def daWalk (p : DAParams) (s : DAState) : DAState :=
  iterSteps p p.I
    ⟨s.map, s.agentX, s.agentY, s.rng.dirs s.rng.dIdx, s.probRoom, s.probChange,
      ⟨s.rng.probs, s.rng.dirs, s.rng.pIdx, s.rng.dIdx + 1⟩⟩

/-- The outer loop: J walks in order.  currentProbRoom and
currentProbChange are declared outside this loop in the source and
persist from walk to walk; the direction is declared inside and is drawn
afresh at the start of each walk. -/
def iterWalks (p : DAParams) : Nat → DAState → DAState
  | 0, s => s
  | n + 1, s => iterWalks p n (daWalk p s)

/-- The state at the top of drunkAgent: newMap is a copy of currentMap,
currentProbRoom and currentProbChange start at their base parameters. -/
def daInit (g : Rng) (m : Map) (p : DAParams) (ax ay : Int) : DAState :=
  ⟨m, ax, ay, 0, p.probGenerateRoom, p.probChangeDirection, g⟩

/-- The whole run of one drunkAgent invocation. -/
def daRun (g : Rng) (m : Map) (p : DAParams) (ax ay : Int) : DAState :=
  iterWalks p p.J (daInit g m p ax ay)

/-- drunkAgent with the argument list of the source; the result is the
returned map together with the final values of the two reference
parameters agentX and agentY. -/
def drunkAgent (g : Rng) (m : Map) (W H J I rX rY : Nat)
    (pGR pIR pCD pIC : ℚ) (ax ay : Int) : Map × Int × Int :=
  let s := daRun g m ⟨W, H, J, I, rX, rY, pGR, pIR, pCD, pIC⟩ ax ay
  (s.map, s.agentX, s.agentY)

/-- The call boundary of drunkAgent: the body copies currentMap into
newMap, never assigns through the currentMap reference, and returns
newMap; agentX and agentY are written through their references.  The
second component is the value of the grid argument after the call, which
is the unchanged input. -/
def drunkAgentCall (g : Rng) (m : Map) (W H J I rX rY : Nat)
    (pGR pIR pCD pIC : ℚ) (ax ay : Int) : Map × Map × Int × Int :=
  let r := drunkAgent g m W H J I rX rY pGR pIR pCD pIC ax ay
  (r.1, m, r.2.1, r.2.2)

-- ## Driver (the main simulation loop of the first copy)

/-- The per-iteration random parameters the driver draws for drunkAgent. -/
structure AgentDraw where
  J : Nat
  I : Nat
  roomSizeX : Nat
  roomSizeY : Nat
  probGenerateRoom : ℚ
  probIncreaseRoom : ℚ
  probChangeDirection : ℚ
  probIncreaseChange : ℚ

/-- One driver iteration: run cellularAutomata on the grid, then
drunkAgent on the result, threading the agent position through the two
reference variables.  gCA and gDA model the per-call generators the two
passes construct. -/
def driverStep (W H caR : Nat) (caU : ℚ) (d : AgentDraw) (gCA gDA : Rng)
    (st : Map × Int × Int) : Map × Int × Int :=
  let m1 := cellularAutomata gCA st.1 W H caR caU
  drunkAgent gDA m1 W H d.J d.I d.roomSizeX d.roomSizeY
    d.probGenerateRoom d.probIncreaseRoom d.probChangeDirection d.probIncreaseChange
    st.2.1 st.2.2

/-- The driver after n iterations: the grid and the agent position are the
only state owned across iterations; draws and gs supply the fresh
per-iteration parameters and generators. -/
def driverIter (W H caR : Nat) (caU : ℚ) (draws : Nat → AgentDraw)
    (gs : Nat → Rng × Rng) : Nat → Map × Int × Int → Map × Int × Int
  | 0, st => st
  | n + 1, st => driverStep W H caR caU (draws n) (gs n).1 (gs n).2
      (driverIter W H caR caU draws gs n st)

-- ## Shape preservation

theorem length_writeRow (f i) : ∀ (w : Nat) (m : Map),
    (writeRow f i w m).length = m.length := by
  intro w
  induction w with
  | zero => intro m; rfl
  | succ k ih => intro m; rw [writeRow, length_setCell, ih]

theorem rowLen_writeRow (f i r) : ∀ (w : Nat) (m : Map),
    ((writeRow f i w m).getD r []).length = ((m.getD r []) : List Int).length := by
  intro w
  induction w with
  | zero => intro m; rfl
  | succ k ih => intro m; rw [writeRow, rowLen_setCell, ih]

theorem length_writeTable (f W) : ∀ (h : Nat) (m : Map),
    (writeTable f W h m).length = m.length := by
  intro h
  induction h with
  | zero => intro m; rfl
  | succ k ih => intro m; rw [writeTable, length_writeRow, ih]

theorem rowLen_writeTable (f W r) : ∀ (h : Nat) (m : Map),
    ((writeTable f W h m).getD r []).length = ((m.getD r []) : List Int).length := by
  intro h
  induction h with
  | zero => intro m; rfl
  | succ k ih => intro m; rw [writeTable, rowLen_writeRow, ih]

-- ## Per-cell value of the buffered table fill

theorem getCell_writeRow_ne (f i r c) (hr : r ≠ i) : ∀ (w : Nat) (m : Map),
    getCell (writeRow f i w m) r c = getCell m r c := by
  intro w
  induction w with
  | zero => intro m; rfl
  | succ k ih =>
      intro m
      rw [writeRow, getCell_setCell_ne _ _ _ _ _ _ (Or.inl hr), ih]

theorem getCell_writeRow_lt (f i c) : ∀ (w : Nat) (m : Map), c < w →
    c < (m.getD i []).length → i < m.length →
    getCell (writeRow f i w m) i c = f i c := by
  intro w
  induction w with
  | zero => intro m hc; exact absurd hc (Nat.not_lt_zero c)
  | succ k ih =>
      intro m hc hrow hlen
      rw [writeRow]
      by_cases he : c = k
      · subst he
        exact getCell_setCell_eq _ _ _ _
          (by rw [length_writeRow]; exact hlen)
          (by rw [rowLen_writeRow]; exact hrow)
      · rw [getCell_setCell_ne _ _ _ _ _ _ (Or.inr he)]
        exact ih m (Nat.lt_of_le_of_ne (Nat.le_of_lt_succ hc) he) hrow hlen

theorem getCell_writeTable (f W) : ∀ (h : Nat) (m : Map) (r c : Nat), r < h → c < W →
    c < (m.getD r []).length → r < m.length →
    getCell (writeTable f W h m) r c = f r c := by
  intro h
  induction h with
  | zero => intro m r c hr; exact absurd hr (Nat.not_lt_zero r)
  | succ k ih =>
      intro m r c hr hc hrow hlen
      rw [writeTable]
      by_cases he : r = k
      · subst he
        exact getCell_writeRow_lt f r c W (writeTable f W r m) hc
          (by rw [rowLen_writeTable]; exact hrow)
          (by rw [length_writeTable]; exact hlen)
      · rw [getCell_writeRow_ne f k r c he]
        exact ih m r c (Nat.lt_of_le_of_ne (Nat.le_of_lt_succ hr) he) hc hrow hlen

-- ## Helper: rows of a well-formed map have length W

theorem rowLen_of_dims (m : Map) (W : Nat) (hrows : ∀ r ∈ m, r.length = W)
    (i : Nat) (hi : i < m.length) : ((m.getD i []) : List Int).length = W := by
  have h1 : m.getD i [] = m[i] := by
    simp [List.getD_eq_getElem?_getD, List.getElem?_eq_getElem hi]
  rw [h1]
  exact hrows _ (List.getElem_mem hi)

/-- Claim C1: for a grid of H rows and W columns, the buffered copy of
cellularAutomata computes every output cell (i, j) as 1 exactly when the
sum of the input values over the in-bounds part of the radius-R window,
divided by the fixed area (2R+1)^2, strictly exceeds U, and 0 otherwise.
The second conjunct shows the in-place copy of cellularAutomata breaking
this rule at the input [[1,0,0]] with W=3, H=1, R=1, U=1/10: the window of
cell (0,2) in the input sums to 0, so the claimed output is 0, but the
in-place copy reads the already-updated cell (0,1) and outputs 1. -/
theorem claim_C1 :
    (∀ (g : Rng) (m : Map) (W H R : Nat) (U : ℚ) (i j : Nat),
        m.length = H → (∀ r ∈ m, r.length = W) → i < H → j < W →
        getCell (cellularAutomata g m W H R U) i j =
          if ((windowSum m W H R i j : ℚ) /
              (((2 * R + 1) * (2 * R + 1) : Nat) : ℚ)) > U
          then 1 else 0) ∧
    (getCell (cellularAutomataInPlace gZero [[1, 0, 0]] 3 1 1 (mkRat 1 10)) 0 2 = 1 ∧
      windowSum [[1, 0, 0]] 3 1 1 0 2 = 0 ∧
      ¬ (((windowSum [[1, 0, 0]] 3 1 1 0 2 : ℚ) /
          (((2 * 1 + 1) * (2 * 1 + 1) : Nat) : ℚ)) > mkRat 1 10)) := by
  constructor
  · intro g m W H R U i j hlen hrows hi hj
    have hi2 : i < m.length := by rw [hlen]; exact hi
    have hrow : j < ((m.getD i []) : List Int).length := by
      rw [rowLen_of_dims m W hrows i hi2]; exact hj
    rw [cellularAutomata, getCell_writeTable _ _ _ _ _ _ hi hj hrow hi2, caCell]
  · refine ⟨?_, by decide, ?_⟩
    · have : cellularAutomataInPlace gZero [[1, 0, 0]] 3 1 1 (mkRat 1 10) = [[1, 1, 1]] := by
        simp [cellularAutomataInPlace, caTableInPlace, caRowInPlace, caCell, windowSum,
          deltas, getCell, setCell, List.range_succ, Rat.mkRat_eq_div]
        norm_num
      rw [this]; decide
    · rw [show windowSum [[1, 0, 0]] 3 1 1 0 2 = 0 from by decide]
      rw [Rat.mkRat_eq_div]
      norm_num

/-- Witness for claim C1 at a concrete input: cell (0,1) of the buffered
pass on [[1,0,0]] has window sum 1 and ratio 1/9 > 1/10, so it is 1. -/
theorem claim_C1_witness :
    getCell (cellularAutomata gZero [[1, 0, 0]] 3 1 1 (mkRat 1 10)) 0 1 = 1 := by
  have h := claim_C1.1 gZero [[1, 0, 0]] 3 1 1 (mkRat 1 10) 0 1 rfl
    (by intro r hr; simp at hr; rw [hr]; rfl) (by decide) (by decide)
  rw [h, if_pos]
  rw [show windowSum [[1, 0, 0]] 3 1 1 0 1 = 1 from by decide, Rat.mkRat_eq_div]
  norm_num

/-- Claim C2: the in-place copy of cellularAutomata is not a synchronous
update.  On the input [[1,0,0,0]] with W=4, H=1, R=1, U=1/10, the
buffered (synchronous) copy returns [[1,1,0,0]], but the in-place copy
computes cells (0,2) and (0,3) from cells already updated in the same
pass and returns [[1,1,1,1]]; in the input grid the window of (0,3) sums
to 0. -/
theorem claim_C2 :
    cellularAutomata gZero [[1, 0, 0, 0]] 4 1 1 (mkRat 1 10) = [[1, 1, 0, 0]] ∧
    cellularAutomataInPlace gZero [[1, 0, 0, 0]] 4 1 1 (mkRat 1 10) = [[1, 1, 1, 1]] ∧
    cellularAutomataInPlace gZero [[1, 0, 0, 0]] 4 1 1 (mkRat 1 10) ≠
      cellularAutomata gZero [[1, 0, 0, 0]] 4 1 1 (mkRat 1 10) ∧
    windowSum [[1, 0, 0, 0]] 4 1 1 0 3 = 0 := by
  have h1 : cellularAutomata gZero [[1, 0, 0, 0]] 4 1 1 (mkRat 1 10) = [[1, 1, 0, 0]] := by
    simp [cellularAutomata, writeTable, writeRow, caCell, windowSum, deltas, getCell,
      setCell, List.range_succ, Rat.mkRat_eq_div]
    norm_num
  have h2 : cellularAutomataInPlace gZero [[1, 0, 0, 0]] 4 1 1 (mkRat 1 10) = [[1, 1, 1, 1]] := by
    simp [cellularAutomataInPlace, caTableInPlace, caRowInPlace, caCell, windowSum, deltas,
      getCell, setCell, List.range_succ, Rat.mkRat_eq_div]
    norm_num
  refine ⟨h1, h2, ?_, by decide⟩
  rw [h1, h2]; decide

/-- Claim C7: both copies of cellularAutomata are deterministic in the
generator they construct: the update rule never draws from the
distribution, so any two generator states give identical output grids. -/
theorem claim_C7 (g1 g2 : Rng) (m : Map) (W H R : Nat) (U : ℚ) :
    cellularAutomata g1 m W H R U = cellularAutomata g2 m W H R U ∧
    cellularAutomataInPlace g1 m W H R U = cellularAutomataInPlace g2 m W H R U :=
  ⟨rfl, rfl⟩

/-- Claim C10: on a grid of H rows and W columns, every cell of the grid
returned by the buffered cellularAutomata is 0 or 1, whatever integer
values the input holds: the pass overwrites every cell of the H-by-W
region with the if-then-else of the rule.  Stated both through getCell
and through membership in the returned rows. -/
theorem claim_C10 (g : Rng) (m : Map) (W H R : Nat) (U : ℚ)
    (hlen : m.length = H) (hrows : ∀ r ∈ m, r.length = W) :
    (∀ i j : Nat, i < H → j < W →
      getCell (cellularAutomata g m W H R U) i j = 0 ∨
        getCell (cellularAutomata g m W H R U) i j = 1) ∧
    (∀ r ∈ cellularAutomata g m W H R U, ∀ v ∈ r, v = 0 ∨ v = 1) := by
  have hcell : ∀ i j : Nat, i < H → j < W →
      getCell (cellularAutomata g m W H R U) i j = 0 ∨
        getCell (cellularAutomata g m W H R U) i j = 1 := by
    intro i j hi hj
    have hi2 : i < m.length := by rw [hlen]; exact hi
    have hrow : j < ((m.getD i []) : List Int).length := by
      rw [rowLen_of_dims m W hrows i hi2]; exact hj
    rw [cellularAutomata, getCell_writeTable _ _ _ _ _ _ hi hj hrow hi2, caCell]
    by_cases hU : ((windowSum m W H R i j : ℚ) /
        (((2 * R + 1) * (2 * R + 1) : Nat) : ℚ)) > U
    · exact Or.inr (if_pos hU)
    · exact Or.inl (if_neg hU)
  refine ⟨hcell, ?_⟩
  intro r hr v hv
  rcases List.mem_iff_getElem.mp hr with ⟨i, hilt, hie⟩
  rcases List.mem_iff_getElem.mp hv with ⟨j, hjlt, hje⟩
  have hlen2 : (cellularAutomata g m W H R U).length = H := by
    rw [cellularAutomata, length_writeTable, hlen]
  have hi : i < H := by rw [← hlen2]; exact hilt
  have hrowl : r.length = W := by
    have : ((cellularAutomata g m W H R U).getD i []) = r := by
      rw [List.getD_eq_getElem?_getD, List.getElem?_eq_getElem hilt]
      simp [hie]
    rw [← hie]
    have h2 : (((cellularAutomata g m W H R U).getD i []) : List Int).length =
        ((m.getD i []) : List Int).length := by
      rw [cellularAutomata, rowLen_writeTable]
    rw [this] at h2
    rw [hie, h2]
    exact rowLen_of_dims m W hrows i (by rw [hlen]; exact hi)
  have hj : j < W := by rw [← hrowl]; exact hjlt
  have houter : List.getD (cellularAutomata g m W H R U) i [] = r := by
    rw [List.getD_eq_getElem?_getD, List.getElem?_eq_getElem hilt, Option.getD_some, hie]
  have hv2 : getCell (cellularAutomata g m W H R U) i j = v := by
    rw [getCell, houter, List.getD_eq_getElem?_getD, List.getElem?_eq_getElem hjlt,
      Option.getD_some, hje]
  rw [← hv2]
  exact hcell i j hi hj

/-- Witness for claim C10: on the non-binary input [[5,-3],[2,7]] every
cell of the output is 0 or 1; shown at cell (0,0). -/
theorem claim_C10_witness :
    getCell (cellularAutomata gZero [[5, -3], [2, 7]] 2 2 1 (mkRat 1 2)) 0 0 = 0 ∨
      getCell (cellularAutomata gZero [[5, -3], [2, 7]] 2 2 1 (mkRat 1 2)) 0 0 = 1 :=
  (claim_C10 gZero [[5, -3], [2, 7]] 2 2 1 (mkRat 1 2) rfl
    (by intro r hr; simp at hr; rcases hr with h | h <;> (rw [h]; rfl))).1 0 0
    (by decide) (by decide)

-- ## Range and room bounds

theorem mem_rangeZ {a b x : Int} (h : x ∈ rangeZ a b) : a ≤ x ∧ x ≤ b := by
  simp only [rangeZ, List.mem_map, List.mem_range] at h
  rcases h with ⟨k, hk, rfl⟩
  omega

theorem getCell_carveRoom_frame (m : Map) (W H : Nat) (ax ay : Int) (rx ry : Nat)
    (i j : Nat) (hout : H ≤ i ∨ W ≤ j) :
    getCell (carveRoom m W H ax ay rx ry) i j = getCell m i j := by
  unfold carveRoom
  apply foldl_preserve (fun c => getCell c i j = getCell m i j) _ _ m rfl
  intro x hx c hc
  apply foldl_preserve (fun c2 => getCell c2 i j = getCell m i j) _ _ c hc
  intro y hy c2 hc2
  rw [setCellZ, getCell_setCell_ne]
  · exact hc2
  · have hxm := mem_rangeZ hx
    have hym := mem_rangeZ hy
    rcases hout with h | h
    · left
      have h1 : x ≤ (H : Int) - 1 := le_trans hxm.2 (min_le_left _ _)
      have h0 : (0 : Int) ≤ x := le_trans (le_max_left _ _) hxm.1
      omega
    · right
      have h1 : y ≤ (W : Int) - 1 := le_trans hym.2 (min_le_left _ _)
      have h0 : (0 : Int) ≤ y := le_trans (le_max_left _ _) hym.1
      omega

theorem getCell_carveRoom_cases (m : Map) (W H : Nat) (ax ay : Int) (rx ry : Nat)
    (i j : Nat) :
    getCell (carveRoom m W H ax ay rx ry) i j = getCell m i j ∨
      getCell (carveRoom m W H ax ay rx ry) i j = 1 := by
  unfold carveRoom
  apply foldl_preserve
    (fun c => getCell c i j = getCell m i j ∨ getCell c i j = 1) _ _ m (Or.inl rfl)
  intro x _ c hc
  apply foldl_preserve
    (fun c2 => getCell c2 i j = getCell m i j ∨ getCell c2 i j = 1) _ _ c hc
  intro y _ c2 hc2
  rw [setCellZ]
  rcases getCell_setCell_cases c2 x.toNat y.toNat 1 i j with h | h
  · rw [h]; exact hc2
  · exact Or.inr h

-- ## Field views of one drunkAgent step

theorem daStep_map (p : DAParams) (s : DAState) :
    (daStep p s).map =
      if s.rng.probs s.rng.pIdx < s.probRoom then
        carveRoom (setCellZ s.map s.agentX s.agentY 1) p.W p.H s.agentX s.agentY
          p.roomSizeX p.roomSizeY
      else setCellZ s.map s.agentX s.agentY 1 := by
  simp only [daStep]
  repeat' split
  all_goals rfl

theorem daStep_pIdx (p : DAParams) (s : DAState) :
    (daStep p s).rng.pIdx = s.rng.pIdx + 2 := by
  simp only [daStep]
  repeat' split
  all_goals rfl

theorem daStep_streams (p : DAParams) (s : DAState) :
    (daStep p s).rng.probs = s.rng.probs ∧ (daStep p s).rng.dirs = s.rng.dirs := by
  simp only [daStep]
  repeat' split
  all_goals exact ⟨rfl, rfl⟩

theorem daStep_dIdx_le (p : DAParams) (s : DAState) :
    (daStep p s).rng.dIdx ≤ s.rng.dIdx + 2 := by
  simp only [daStep]
  repeat' split
  all_goals simp

/-- Either the step moves to the checked in-bounds cell, or the position
is unchanged (the bounce case). -/
theorem daStep_pos (p : DAParams) (s : DAState) :
    ((daStep p s).agentX = s.agentX ∧ (daStep p s).agentY = s.agentY) ∨
      (0 ≤ (daStep p s).agentX ∧ (daStep p s).agentX < (p.H : Int) ∧
        0 ≤ (daStep p s).agentY ∧ (daStep p s).agentY < (p.W : Int)) := by
  by_cases h1 : s.rng.probs (s.rng.pIdx + 1) < s.probChange <;>
    by_cases h0 : s.rng.probs s.rng.pIdx < s.probRoom <;>
      simp only [daStep, h0, h1, ite_true, ite_false] <;>
        split
  all_goals
    first
      | exact Or.inl ⟨rfl, rfl⟩
      | (rename_i hmv; exact Or.inr ⟨hmv.1, hmv.2.1, hmv.2.2.1, hmv.2.2.2⟩)

-- ## Position and frame invariants of the agent pass

/-- The agent position lies in the grid: 0 <= agentX < H and
0 <= agentY < W. -/
def posIn (p : DAParams) (s : DAState) : Prop :=
  0 ≤ s.agentX ∧ s.agentX < (p.H : Int) ∧ 0 ≤ s.agentY ∧ s.agentY < (p.W : Int)

theorem daStep_posIn (p : DAParams) (s : DAState) (h : posIn p s) :
    posIn p (daStep p s) := by
  rcases daStep_pos p s with hsame | hb
  · unfold posIn
    rw [hsame.1, hsame.2]
    exact h
  · exact hb

theorem daStep_frame (p : DAParams) (s : DAState) (hp : posIn p s) (i j : Nat)
    (hout : p.H ≤ i ∨ p.W ≤ j) :
    getCell (daStep p s).map i j = getCell s.map i j := by
  rcases hp with ⟨h1, h2, h3, h4⟩
  have hset : getCell (setCellZ s.map s.agentX s.agentY 1) i j = getCell s.map i j := by
    rw [setCellZ, getCell_setCell_ne]
    rcases hout with h | h
    · left; omega
    · right; omega
  rw [daStep_map]
  split
  · rw [getCell_carveRoom_frame _ _ _ _ _ _ _ i j hout, hset]
  · exact hset

/-- The whole invariant for claims C3: position in bounds and no cell
outside the H-by-W region ever changed. -/
def daInv (p : DAParams) (m0 : Map) (s : DAState) : Prop :=
  posIn p s ∧
    ∀ i j : Nat, p.H ≤ i ∨ p.W ≤ j → getCell s.map i j = getCell m0 i j

theorem daStep_daInv (p : DAParams) (m0 : Map) (s : DAState) (h : daInv p m0 s) :
    daInv p m0 (daStep p s) :=
  ⟨daStep_posIn p s h.1, fun i j hout => by
    rw [daStep_frame p s h.1 i j hout]; exact h.2 i j hout⟩

theorem iterSteps_daInv (p : DAParams) (m0 : Map) :
    ∀ (n : Nat) (s : DAState), daInv p m0 s → daInv p m0 (iterSteps p n s) := by
  intro n
  induction n with
  | zero => intro s h; exact h
  | succ k ih => intro s h; exact ih (daStep p s) (daStep_daInv p m0 s h)

theorem daWalk_daInv (p : DAParams) (m0 : Map) (s : DAState) (h : daInv p m0 s) :
    daInv p m0 (daWalk p s) := by
  rw [daWalk]
  exact iterSteps_daInv p m0 p.I _ ⟨⟨h.1.1, h.1.2.1, h.1.2.2.1, h.1.2.2.2⟩, h.2⟩

theorem iterWalks_daInv (p : DAParams) (m0 : Map) :
    ∀ (n : Nat) (s : DAState), daInv p m0 s → daInv p m0 (iterWalks p n s) := by
  intro n
  induction n with
  | zero => intro s h; exact h
  | succ k ih => intro s h; exact ih (daWalk p s) (daWalk_daInv p m0 s h)

/-- Claim C3: with the initial agent position inside the grid, the final
position reported through the two reference parameters is inside the
grid, no cell outside the H-by-W region is ever written (corridor marks
and carved rooms are clamped inside), and a single step always keeps an
in-bounds position in bounds. -/
theorem claim_C3 (g : Rng) (m : Map) (W H J I rX rY : Nat) (pGR pIR pCD pIC : ℚ)
    (ax ay : Int)
    (hax : 0 ≤ ax ∧ ax < (H : Int)) (hay : 0 ≤ ay ∧ ay < (W : Int)) :
    (0 ≤ (drunkAgent g m W H J I rX rY pGR pIR pCD pIC ax ay).2.1 ∧
      (drunkAgent g m W H J I rX rY pGR pIR pCD pIC ax ay).2.1 < (H : Int) ∧
      0 ≤ (drunkAgent g m W H J I rX rY pGR pIR pCD pIC ax ay).2.2 ∧
      (drunkAgent g m W H J I rX rY pGR pIR pCD pIC ax ay).2.2 < (W : Int)) ∧
    (∀ i j : Nat, H ≤ i ∨ W ≤ j →
      getCell (drunkAgent g m W H J I rX rY pGR pIR pCD pIC ax ay).1 i j =
        getCell m i j) ∧
    (∀ (q : DAParams) (s : DAState), posIn q s → posIn q (daStep q s)) := by
  have hinv : daInv ⟨W, H, J, I, rX, rY, pGR, pIR, pCD, pIC⟩ m
      (daRun g m ⟨W, H, J, I, rX, rY, pGR, pIR, pCD, pIC⟩ ax ay) := by
    apply iterWalks_daInv
    exact ⟨⟨hax.1, hax.2, hay.1, hay.2⟩, fun i j _ => rfl⟩
  refine ⟨⟨hinv.1.1, hinv.1.2.1, hinv.1.2.2.1, hinv.1.2.2.2⟩, hinv.2, ?_⟩
  exact fun q s hs => daStep_posIn q s hs

/-- Witness for claim C3 on a one-cell grid with one walk of one step. -/
theorem claim_C3_witness :
    (0 ≤ (drunkAgent gZero [[0]] 1 1 1 1 0 0 0 0 0 0 0 0).2.1 ∧
      (drunkAgent gZero [[0]] 1 1 1 1 0 0 0 0 0 0 0 0).2.1 < (1 : Int)) ∧
    getCell (drunkAgent gZero [[0]] 1 1 1 1 0 0 0 0 0 0 0 0).1 5 7 =
      getCell [[0]] 5 7 := by
  have h := claim_C3 gZero [[0]] 1 1 1 1 0 0 0 0 0 0 (0 : Int) (0 : Int)
    ⟨by decide, by decide⟩ ⟨by decide, by decide⟩
  exact ⟨⟨h.1.1, h.1.2.1⟩, h.2.1 5 7 (Or.inl (by decide))⟩

-- ## Monotonicity of the agent pass on cell values

theorem daStep_mono (p : DAParams) (m0 : Map) (s : DAState)
    (h : ∀ i j : Nat, getCell s.map i j = getCell m0 i j ∨ getCell s.map i j = 1) :
    ∀ i j : Nat,
      getCell (daStep p s).map i j = getCell m0 i j ∨
        getCell (daStep p s).map i j = 1 := by
  intro i j
  have hset : getCell (setCellZ s.map s.agentX s.agentY 1) i j = getCell m0 i j ∨
      getCell (setCellZ s.map s.agentX s.agentY 1) i j = 1 := by
    rw [setCellZ]
    rcases getCell_setCell_cases s.map s.agentX.toNat s.agentY.toNat 1 i j with hs | hs
    · rw [hs]; exact h i j
    · exact Or.inr hs
  rw [daStep_map]
  split
  · rcases getCell_carveRoom_cases (setCellZ s.map s.agentX s.agentY 1) p.W p.H
      s.agentX s.agentY p.roomSizeX p.roomSizeY i j with hc | hc
    · rw [hc]; exact hset
    · exact Or.inr hc
  · exact hset

theorem iterSteps_mono (p : DAParams) (m0 : Map) :
    ∀ (n : Nat) (s : DAState),
      (∀ i j : Nat, getCell s.map i j = getCell m0 i j ∨ getCell s.map i j = 1) →
      ∀ i j : Nat,
        getCell (iterSteps p n s).map i j = getCell m0 i j ∨
          getCell (iterSteps p n s).map i j = 1 := by
  intro n
  induction n with
  | zero => intro s h; exact h
  | succ k ih => intro s h; exact ih (daStep p s) (daStep_mono p m0 s h)

theorem iterWalks_mono (p : DAParams) (m0 : Map) :
    ∀ (n : Nat) (s : DAState),
      (∀ i j : Nat, getCell s.map i j = getCell m0 i j ∨ getCell s.map i j = 1) →
      ∀ i j : Nat,
        getCell (iterWalks p n s).map i j = getCell m0 i j ∨
          getCell (iterWalks p n s).map i j = 1 := by
  intro n
  induction n with
  | zero => intro s h; exact h
  | succ k ih =>
      intro s h
      apply ih
      rw [daWalk]
      exact iterSteps_mono p m0 p.I _ h

/-- Claim C9: drunkAgent only ever writes the value 1, so every cell of
the returned grid either keeps its input value or is 1, and in particular
every input cell holding 1 still holds 1 on output, for every random
stream. -/
theorem claim_C9 (g : Rng) (m : Map) (W H J I rX rY : Nat) (pGR pIR pCD pIC : ℚ)
    (ax ay : Int) (i j : Nat) :
    (getCell (drunkAgent g m W H J I rX rY pGR pIR pCD pIC ax ay).1 i j =
        getCell m i j ∨
      getCell (drunkAgent g m W H J I rX rY pGR pIR pCD pIC ax ay).1 i j = 1) ∧
    (getCell m i j = 1 →
      getCell (drunkAgent g m W H J I rX rY pGR pIR pCD pIC ax ay).1 i j = 1) := by
  have h : getCell (drunkAgent g m W H J I rX rY pGR pIR pCD pIC ax ay).1 i j =
        getCell m i j ∨
      getCell (drunkAgent g m W H J I rX rY pGR pIR pCD pIC ax ay).1 i j = 1 :=
    iterWalks_mono ⟨W, H, J, I, rX, rY, pGR, pIR, pCD, pIC⟩ m J
      (daInit g m ⟨W, H, J, I, rX, rY, pGR, pIR, pCD, pIC⟩ ax ay)
      (fun _ _ => Or.inl rfl) i j
  refine ⟨h, fun h1 => ?_⟩
  rcases h with h2 | h2
  · rw [h2, h1]
  · exact h2

/-- Witness for claim C9: the occupied cell of [[1]] is still 1 after a
one-step walk. -/
theorem claim_C9_witness :
    getCell [[1]] 0 0 = 1 ∧
      getCell (drunkAgent gZero [[1]] 1 1 1 1 0 0 0 0 0 0 0 0).1 0 0 = 1 :=
  ⟨rfl, (claim_C9 gZero [[1]] 1 1 1 1 0 0 0 0 0 0 0 0 0 0).2 rfl⟩

-- ## Loop accounting of the agent pass

theorem iterSteps_pIdx (p : DAParams) :
    ∀ (n : Nat) (s : DAState),
      (iterSteps p n s).rng.pIdx = s.rng.pIdx + 2 * n := by
  intro n
  induction n with
  | zero => intro s; rfl
  | succ k ih =>
      intro s
      rw [iterSteps, ih (daStep p s), daStep_pIdx]
      omega

theorem daWalk_pIdx (p : DAParams) (s : DAState) :
    (daWalk p s).rng.pIdx = s.rng.pIdx + 2 * p.I := by
  rw [daWalk, iterSteps_pIdx]

theorem iterWalks_pIdx (p : DAParams) :
    ∀ (n : Nat) (s : DAState),
      (iterWalks p n s).rng.pIdx = s.rng.pIdx + n * (2 * p.I) := by
  intro n
  induction n with
  | zero => intro s; simp [iterWalks]
  | succ k ih =>
      intro s
      rw [iterWalks, ih (daWalk p s), daWalk_pIdx]
      ring

theorem iterSteps_dIdx_le (p : DAParams) :
    ∀ (n : Nat) (s : DAState),
      (iterSteps p n s).rng.dIdx ≤ s.rng.dIdx + 2 * n := by
  intro n
  induction n with
  | zero => intro s; exact Nat.le_add_right _ 0
  | succ k ih =>
      intro s
      rw [iterSteps]
      calc (iterSteps p k (daStep p s)).rng.dIdx
          ≤ (daStep p s).rng.dIdx + 2 * k := ih (daStep p s)
        _ ≤ (s.rng.dIdx + 2) + 2 * k := Nat.add_le_add_right (daStep_dIdx_le p s) _
        _ ≤ s.rng.dIdx + 2 * (k + 1) := by omega

theorem daWalk_dIdx_le (p : DAParams) (s : DAState) :
    (daWalk p s).rng.dIdx ≤ s.rng.dIdx + (1 + 2 * p.I) := by
  rw [daWalk]
  calc (iterSteps p p.I
        ⟨s.map, s.agentX, s.agentY, s.rng.dirs s.rng.dIdx, s.probRoom, s.probChange,
          ⟨s.rng.probs, s.rng.dirs, s.rng.pIdx, s.rng.dIdx + 1⟩⟩).rng.dIdx
      ≤ (s.rng.dIdx + 1) + 2 * p.I := iterSteps_dIdx_le p p.I _
    _ ≤ s.rng.dIdx + (1 + 2 * p.I) := by omega

theorem iterWalks_dIdx_le (p : DAParams) :
    ∀ (n : Nat) (s : DAState),
      (iterWalks p n s).rng.dIdx ≤ s.rng.dIdx + n * (1 + 2 * p.I) := by
  intro n
  induction n with
  | zero => intro s; simp [iterWalks]
  | succ k ih =>
      intro s
      rw [iterWalks]
      calc (iterWalks p k (daWalk p s)).rng.dIdx
          ≤ (daWalk p s).rng.dIdx + k * (1 + 2 * p.I) := ih (daWalk p s)
        _ ≤ (s.rng.dIdx + (1 + 2 * p.I)) + k * (1 + 2 * p.I) :=
            Nat.add_le_add_right (daWalk_dIdx_le p s) _
        _ = s.rng.dIdx + (k + 1) * (1 + 2 * p.I) := by ring

theorem iterWalks_noop_of_I_eq_zero (p : DAParams) (hI : p.I = 0) :
    ∀ (n : Nat) (s : DAState),
      (iterWalks p n s).map = s.map ∧ (iterWalks p n s).agentX = s.agentX ∧
        (iterWalks p n s).agentY = s.agentY := by
  intro n
  induction n with
  | zero => intro s; exact ⟨rfl, rfl, rfl⟩
  | succ k ih =>
      intro s
      rw [iterWalks, daWalk, hI]
      exact ih _

/-- Claim C8: the work of both passes is bounded by the supplied
parameters.  The cellular automata pass always returns a grid with the
same number of rows and the same row lengths as the input; the agent pass
performs exactly J walks of I steps, drawing exactly 2 probability rolls
per step, hence exactly J * 2 * I in total, and at most J * (1 + 2 * I)
direction draws; and J = 0 or I = 0 makes drunkAgent a no-op on the grid
and the agent position. -/
theorem claim_C8 :
    (∀ (g : Rng) (m : Map) (W H R : Nat) (U : ℚ),
      (cellularAutomata g m W H R U).length = m.length ∧
      ∀ i : Nat, ((cellularAutomata g m W H R U).getD i [] : List Int).length =
        ((m.getD i []) : List Int).length) ∧
    (∀ (g : Rng) (m : Map) (p : DAParams) (ax ay : Int),
      (daRun g m p ax ay).rng.pIdx = g.pIdx + p.J * (2 * p.I) ∧
      (daRun g m p ax ay).rng.dIdx ≤ g.dIdx + p.J * (1 + 2 * p.I)) ∧
    (∀ (g : Rng) (m : Map) (W H J I rX rY : Nat) (pGR pIR pCD pIC : ℚ) (ax ay : Int),
      drunkAgent g m W H 0 I rX rY pGR pIR pCD pIC ax ay = (m, ax, ay) ∧
      drunkAgent g m W H J 0 rX rY pGR pIR pCD pIC ax ay = (m, ax, ay)) := by
  refine ⟨?_, ?_, ?_⟩
  · intro g m W H R U
    exact ⟨length_writeTable _ _ _ _, fun i => rowLen_writeTable _ _ _ _ _⟩
  · intro g m p ax ay
    exact ⟨iterWalks_pIdx p p.J _, iterWalks_dIdx_le p p.J _⟩
  · intro g m W H J I rX rY pGR pIR pCD pIC ax ay
    constructor
    · rfl
    · have h := iterWalks_noop_of_I_eq_zero ⟨W, H, J, 0, rX, rY, pGR, pIR, pCD, pIC⟩
        rfl J (daInit g m ⟨W, H, J, 0, rX, rY, pGR, pIR, pCD, pIC⟩ ax ay)
      show ((iterWalks ⟨W, H, J, 0, rX, rY, pGR, pIR, pCD, pIC⟩ J
          (daInit g m ⟨W, H, J, 0, rX, rY, pGR, pIR, pCD, pIC⟩ ax ay)).map,
        (iterWalks ⟨W, H, J, 0, rX, rY, pGR, pIR, pCD, pIC⟩ J
          (daInit g m ⟨W, H, J, 0, rX, rY, pGR, pIR, pCD, pIC⟩ ax ay)).agentX,
        (iterWalks ⟨W, H, J, 0, rX, rY, pGR, pIR, pCD, pIC⟩ J
          (daInit g m ⟨W, H, J, 0, rX, rY, pGR, pIR, pCD, pIC⟩ ax ay)).agentY) =
        (m, ax, ay)
      rw [h.1, h.2.1, h.2.2]
      rfl

-- ## The call boundary of drunkAgent (claim C4)

/-- A stream whose probability rolls always miss (9/10) and whose
direction draws are all 0 (up). -/
def gNine : Rng := ⟨fun _ => mkRat 9 10, fun _ => 0, 0, 0⟩

/-- Claim C4 counterexample: on the one-cell grid [[0]] with one walk of
one step, the call returns the carved grid [[1]] while the grid object
passed by reference still holds [[0]] after the call: drunkAgent does not
mutate the passed grid in place. -/
theorem claim_C4_counterexample :
    (drunkAgentCall gNine [[0]] 1 1 1 1 0 0 (mkRat 1 2) 0 (mkRat 1 2) 0 0 0).1 = [[1]] ∧
    (drunkAgentCall gNine [[0]] 1 1 1 1 0 0 (mkRat 1 2) 0 (mkRat 1 2) 0 0 0).2.1 = [[0]] ∧
    (drunkAgentCall gNine [[0]] 1 1 1 1 0 0 (mkRat 1 2) 0 (mkRat 1 2) 0 0 0).2.1 ≠
      (drunkAgentCall gNine [[0]] 1 1 1 1 0 0 (mkRat 1 2) 0 (mkRat 1 2) 0 0 0).1 := by
  have h1 : (drunkAgent gNine [[0]] 1 1 1 1 0 0 (mkRat 1 2) 0 (mkRat 1 2) 0 0 0).1 = [[1]] := by
    show (daRun gNine [[0]] ⟨1, 1, 1, 1, 0, 0, mkRat 1 2, 0, mkRat 1 2, 0⟩ 0 0).map = [[1]]
    simp only [daRun, iterWalks, daWalk, daInit, iterSteps, daStep, gNine, setCellZ,
      setCell, getCell, dirOffset, directions, carveRoom, rangeZ, roomStartX, roomEndX,
      roomStartY, roomEndY, Rat.mkRat_eq_div]
    norm_num
  have h1c : (drunkAgentCall gNine [[0]] 1 1 1 1 0 0 (mkRat 1 2) 0 (mkRat 1 2) 0 0 0).1
      = [[1]] := h1
  refine ⟨h1c, rfl, ?_⟩
  rw [h1c]
  intro hcontra
  rw [show (drunkAgentCall gNine [[0]] 1 1 1 1 0 0 (mkRat 1 2) 0 (mkRat 1 2) 0 0 0).2.1
      = [[0]] from rfl] at hcontra
  exact absurd hcontra (by decide)

/-- Claim C4 amended: drunkAgent updates agentX and agentY through their
references and returns the carved grid, but it never writes through the
grid reference: after the call the passed grid object still holds the
input, and it is the driver that stores the returned grid back into
myMap. -/
theorem claim_C4_amended (g : Rng) (m : Map) (W H J I rX rY : Nat)
    (pGR pIR pCD pIC : ℚ) (ax ay : Int) (caR : Nat) (caU : ℚ) (d : AgentDraw)
    (gCA gDA : Rng) :
    (drunkAgentCall g m W H J I rX rY pGR pIR pCD pIC ax ay).2.1 = m ∧
    (drunkAgentCall g m W H J I rX rY pGR pIR pCD pIC ax ay).1 =
      (drunkAgent g m W H J I rX rY pGR pIR pCD pIC ax ay).1 ∧
    (drunkAgentCall g m W H J I rX rY pGR pIR pCD pIC ax ay).2.2.1 =
      (drunkAgent g m W H J I rX rY pGR pIR pCD pIC ax ay).2.1 ∧
    (drunkAgentCall g m W H J I rX rY pGR pIR pCD pIC ax ay).2.2.2 =
      (drunkAgent g m W H J I rX rY pGR pIR pCD pIC ax ay).2.2 ∧
    driverStep W H caR caU d gCA gDA (m, ax, ay) =
      drunkAgent gDA (cellularAutomata gCA m W H caR caU) W H d.J d.I
        d.roomSizeX d.roomSizeY d.probGenerateRoom d.probIncreaseRoom
        d.probChangeDirection d.probIncreaseChange ax ay :=
  ⟨rfl, rfl, rfl, rfl, rfl⟩

/-- Claim C6: across driver iterations only the grid and the agent
position persist: iteration n+1 calls cellularAutomata and then
drunkAgent on exactly the grid and position produced by iteration n,
with fresh per-iteration parameters and generators; inside drunkAgent
the two ramp probabilities start at their base parameters and the
position and grid are taken from the arguments; and each walk draws its
direction from the stream, so the walk result does not depend on the
direction field of the incoming state. -/
theorem claim_C6 :
    (∀ (W H caR : Nat) (caU : ℚ) (draws : Nat → AgentDraw) (gs : Nat → Rng × Rng)
        (n : Nat) (st : Map × Int × Int),
      driverIter W H caR caU draws gs (n + 1) st =
        drunkAgent (gs n).2
          (cellularAutomata (gs n).1 (driverIter W H caR caU draws gs n st).1 W H caR caU)
          W H (draws n).J (draws n).I (draws n).roomSizeX (draws n).roomSizeY
          (draws n).probGenerateRoom (draws n).probIncreaseRoom
          (draws n).probChangeDirection (draws n).probIncreaseChange
          (driverIter W H caR caU draws gs n st).2.1
          (driverIter W H caR caU draws gs n st).2.2) ∧
    (∀ (g : Rng) (m : Map) (p : DAParams) (ax ay : Int),
      (daInit g m p ax ay).probRoom = p.probGenerateRoom ∧
      (daInit g m p ax ay).probChange = p.probChangeDirection ∧
      (daInit g m p ax ay).map = m ∧
      (daInit g m p ax ay).agentX = ax ∧
      (daInit g m p ax ay).agentY = ay ∧
      (daInit g m p ax ay).rng = g ∧
      daRun g m p ax ay = iterWalks p p.J (daInit g m p ax ay)) ∧
    (∀ (p : DAParams) (s : DAState) (d : Fin 4),
      daWalk p ⟨s.map, s.agentX, s.agentY, d, s.probRoom, s.probChange, s.rng⟩ =
        daWalk p s) :=
  ⟨fun _ _ _ _ _ _ _ _ => rfl,
   fun _ _ _ _ _ => ⟨rfl, rfl, rfl, rfl, rfl, rfl, rfl⟩,
   fun _ _ _ => rfl⟩

-- ## Ramp behaviour (claim C5)

/-- A stream whose probability rolls always miss (9/10) and whose
direction draws are all 3 (right). -/
def gNineRight : Rng := ⟨fun _ => mkRat 9 10, fun _ => 3, 0, 0⟩

/-- Parameters of the C5 run: a 1-row, 2-column grid, one walk of three
steps, base probabilities 1/2 and 1/10, increments 1/10. -/
def pCex : DAParams := ⟨2, 1, 1, 3, 0, 0, mkRat 1 2, mkRat 1 10, mkRat 1 10, mkRat 1 10⟩

/-- The state entering the steps of the single walk of the C5 run. -/
def sCex : DAState :=
  ⟨[[0, 0]], 0, 0, 3, mkRat 1 2, mkRat 1 10,
    ⟨fun _ => mkRat 9 10, fun _ => 3, 0, 1⟩⟩

-- Field views of one step used by claim C5.

theorem daStep_probRoom (p : DAParams) (s : DAState) :
    (daStep p s).probRoom =
      if s.rng.probs s.rng.pIdx < s.probRoom then p.probGenerateRoom
      else s.probRoom + p.probIncreaseRoom := by
  simp only [daStep]
  repeat' split
  all_goals rfl

theorem daStep_probChange_of_trig (p : DAParams) (s : DAState)
    (h : s.rng.probs (s.rng.pIdx + 1) < s.probChange) :
    (daStep p s).probChange = p.probChangeDirection := by
  simp only [daStep, if_pos h] <;> (repeat' split) <;> rfl

theorem daStep_probChange_of_miss_move (p : DAParams) (s : DAState)
    (h : ¬ s.rng.probs (s.rng.pIdx + 1) < s.probChange)
    (hm : 0 ≤ s.agentX + (dirOffset s.dir).1 ∧
      s.agentX + (dirOffset s.dir).1 < (p.H : Int) ∧
      0 ≤ s.agentY + (dirOffset s.dir).2 ∧
      s.agentY + (dirOffset s.dir).2 < (p.W : Int)) :
    (daStep p s).probChange = s.probChange + p.probIncreaseChange := by
  simp only [daStep, if_neg h, if_pos hm] <;> (repeat' split) <;> rfl

theorem daStep_probChange_of_miss_bounce (p : DAParams) (s : DAState)
    (h : ¬ s.rng.probs (s.rng.pIdx + 1) < s.probChange)
    (hm : ¬ (0 ≤ s.agentX + (dirOffset s.dir).1 ∧
      s.agentX + (dirOffset s.dir).1 < (p.H : Int) ∧
      0 ≤ s.agentY + (dirOffset s.dir).2 ∧
      s.agentY + (dirOffset s.dir).2 < (p.W : Int))) :
    (daStep p s).probChange = p.probChangeDirection := by
  simp only [daStep, if_neg h, if_neg hm] <;> (repeat' split) <;> rfl

/-- Claim C5 counterexample: in the drunkAgent invocation on the 1-by-2
grid with the constant 9/10 roll stream and constant right direction
stream, whose walk states are iterSteps pCex k sCex, the step from state
1 to state 2 fires neither the room roll nor the direction-change roll,
yet currentProbChange drops from 1/5 to the base 1/10, because the
candidate move leaves the grid and the border bounce resets it.  Both
increments are non-negative, so the claimed monotonicity between trigger
events fails. -/
theorem claim_C5_counterexample :
    0 ≤ pCex.probIncreaseRoom ∧ 0 ≤ pCex.probIncreaseChange ∧
    daRun gNineRight [[0, 0]] pCex 0 0 = iterSteps pCex 3 sCex ∧
    ¬ ((iterSteps pCex 1 sCex).rng.probs (iterSteps pCex 1 sCex).rng.pIdx <
        (iterSteps pCex 1 sCex).probRoom) ∧
    ¬ ((iterSteps pCex 1 sCex).rng.probs ((iterSteps pCex 1 sCex).rng.pIdx + 1) <
        (iterSteps pCex 1 sCex).probChange) ∧
    (iterSteps pCex 2 sCex).probChange < (iterSteps pCex 1 sCex).probChange := by
  have e1 : (iterSteps pCex 1 sCex).probChange = mkRat 1 5 := by
    norm_num [iterSteps, daStep, sCex, pCex, dirOffset, directions, setCellZ, setCell,
      getCell, Rat.mkRat_eq_div, show ((3 : Fin 4) : Nat) = 3 from rfl]
  have e2 : (iterSteps pCex 2 sCex).probChange = mkRat 1 10 := by
    norm_num [iterSteps, daStep, sCex, pCex, dirOffset, directions, setCellZ, setCell,
      getCell, Rat.mkRat_eq_div, show ((3 : Fin 4) : Nat) = 3 from rfl]
  have e3 : (iterSteps pCex 1 sCex).probRoom = mkRat 3 5 := by
    norm_num [iterSteps, daStep, sCex, pCex, dirOffset, directions, setCellZ, setCell,
      getCell, Rat.mkRat_eq_div, show ((3 : Fin 4) : Nat) = 3 from rfl]
  have e4 : (iterSteps pCex 1 sCex).rng.probs = sCex.rng.probs := by
    rw [show iterSteps pCex 1 sCex = daStep pCex sCex from rfl,
      (daStep_streams pCex sCex).1]
  refine ⟨by decide, by decide, rfl, ?_, ?_, ?_⟩
  · rw [e4, e3]
    show ¬ (mkRat 9 10 < mkRat 3 5)
    decide
  · rw [e4, e1]
    show ¬ (mkRat 9 10 < mkRat 1 5)
    decide
  · rw [e1, e2]
    decide

/-- Claim C5 amended: within one drunkAgent invocation with non-negative
increments, currentProbRoom resets exactly to probGenerateRoom when the
room roll fires and otherwise grows by probIncreaseRoom (so it never
decreases between room triggers); currentProbChange resets exactly to
probChangeDirection when the direction-change roll fires AND ALSO when
the candidate move leaves the grid (border bounce), and grows by
probIncreaseChange, never decreasing, only across steps in which neither
the change roll fires nor a bounce occurs. -/
theorem claim_C5_amended (p : DAParams) (s : DAState)
    (hIR : 0 ≤ p.probIncreaseRoom) (hIC : 0 ≤ p.probIncreaseChange) :
    ((s.rng.probs s.rng.pIdx < s.probRoom →
        (daStep p s).probRoom = p.probGenerateRoom) ∧
      (¬ s.rng.probs s.rng.pIdx < s.probRoom →
        (daStep p s).probRoom = s.probRoom + p.probIncreaseRoom ∧
          s.probRoom ≤ (daStep p s).probRoom)) ∧
    ((s.rng.probs (s.rng.pIdx + 1) < s.probChange →
        (daStep p s).probChange = p.probChangeDirection) ∧
      (¬ s.rng.probs (s.rng.pIdx + 1) < s.probChange →
        ((0 ≤ s.agentX + (dirOffset s.dir).1 ∧
            s.agentX + (dirOffset s.dir).1 < (p.H : Int) ∧
            0 ≤ s.agentY + (dirOffset s.dir).2 ∧
            s.agentY + (dirOffset s.dir).2 < (p.W : Int) →
          (daStep p s).probChange = s.probChange + p.probIncreaseChange ∧
            s.probChange ≤ (daStep p s).probChange) ∧
        (¬ (0 ≤ s.agentX + (dirOffset s.dir).1 ∧
            s.agentX + (dirOffset s.dir).1 < (p.H : Int) ∧
            0 ≤ s.agentY + (dirOffset s.dir).2 ∧
            s.agentY + (dirOffset s.dir).2 < (p.W : Int)) →
          (daStep p s).probChange = p.probChangeDirection)))) := by
  refine ⟨⟨?_, ?_⟩, ?_, ?_⟩
  · intro h
    rw [daStep_probRoom, if_pos h]
  · intro h
    rw [daStep_probRoom, if_neg h]
    exact ⟨rfl, le_add_of_nonneg_right hIR⟩
  · intro h
    exact daStep_probChange_of_trig p s h
  · intro h
    refine ⟨fun hm => ?_, fun hm => daStep_probChange_of_miss_bounce p s h hm⟩
    rw [daStep_probChange_of_miss_move p s h hm]
    exact ⟨rfl, le_add_of_nonneg_right hIC⟩

/-- Witness for the amended claim C5 at the concrete state sCex: no
trigger fires, the move stays in bounds, and both running probabilities
grow by their increments. -/
theorem claim_C5_witness :
    (daStep pCex sCex).probRoom = sCex.probRoom + pCex.probIncreaseRoom ∧
    sCex.probRoom ≤ (daStep pCex sCex).probRoom ∧
    (daStep pCex sCex).probChange = sCex.probChange + pCex.probIncreaseChange := by
  have h := claim_C5_amended pCex sCex (by decide) (by decide)
  have hroom := h.1.2 (by decide)
  have hch := (h.2.2 (by decide)).1 (by decide)
  exact ⟨hroom.1, hroom.2, hch.1⟩
